import Mathlib

/-!
Verification development for a slide-deck keyword search tool.

The source program extracts text from presentation shapes
(`extract_from_all_shapes` in `app.py`), normalizes it per slide
(`clean_text`), matches keywords against the normalized slide text
(exact substring or fuzzy similarity), and scans a list of presentation
files, skipping the ones that fail to open.

Modelling conventions:
  * A Python attribute access or method call that may raise is modelled
    as an `Option` value; `none` means the access raised (or the
    attribute is absent), and every `try/except ...: pass` block in the
    source corresponds to a `match ... with | none => ...` arm that
    contributes nothing.
  * External capabilities (optical character recognition, the fuzzy
    similarity function of the rapidfuzz library) are parameters.
  * Strings are Lean `String`s; character-level work happens on
    `List Char` via `String.data`.
-/

/-! ### Python string primitives -/

/-- Whitespace characters stripped by the Python `str.strip` method. -/
def isPySpace (c : Char) : Bool :=
  c = ' ' || c = '\t' || c = '\n' || c = '\r' || c = '\x0b' || c = '\x0c'

/-- The list-level model of `str.strip`: drop whitespace from both ends. -/
def pyStripList (l : List Char) : List Char :=
  ((l.dropWhile isPySpace).reverse.dropWhile isPySpace).reverse

/-- Model of the Python `str.strip` method. -/
def pyStrip (s : String) : String :=
  String.mk (pyStripList s.data)

/-- Model of the Python `str.lower` method (ASCII case folding). -/
def pyLower (s : String) : String :=
  String.mk (s.data.map Char.toLower)

/-- Model of `clean_text` in `app.py`: removes the control characters
matched by the regex `[\000-\010\013\014\016-\037]`. -/
def clean_text (s : String) : String :=
  String.mk (s.data.filter (fun c =>
    !((c.toNat ≤ 8) || c.toNat = 11 || c.toNat = 12 ||
      (14 ≤ c.toNat && c.toNat ≤ 31))))

/-- Occurrence of `pat` at position `i` of `l` (model of Python substring
containment at a fixed index). -/
def occursAt (l pat : List Char) (i : Nat) : Bool :=
  (l.drop i).take pat.length == pat

/-- Model of the Python `in` operator on strings: substring containment. -/
def strContains (hay needle : String) : Bool :=
  (List.range (hay.data.length + 1)).any (occursAt hay.data needle.data)

/-! ### Shape model and `extract_from_all_shapes` -/

/-- Shape kinds distinguished by `extract_from_all_shapes` via
`MSO_SHAPE_TYPE`; `other` stands for every kind the code does not test. -/
inductive ShapeKind : Type where
  | table
  | group
  | picture
  | chart
  | other
deriving DecidableEq, Repr

/-- A slide shape as consumed by `extract_from_all_shapes`.  Fields model
the attributes the code probes; `none` models an absent attribute or a
raising access.  Table cells are row-major, a `none` cell models a
raising `tbl.cell(r, c).text`.  The last two fields are the vertical
position and the maximal run font size; the source extractor never reads
them. -/
inductive PShape : Type where
  | mk (text : Option String)
       (kind : Option ShapeKind)
       (tbl : Option (List (List (Option String))))
       (children : Option (List PShape))
       (blob : Option (List Nat))
       (top : Int)
       (font : Int)
deriving Repr

/-- Text contributed by the `hasattr(shape, "text") and shape.text`
branch: the text followed by one space, or nothing. -/
def textFrag : Option String → String
  | none => ""
  | some s => if s = "" then "" else s ++ " "

/-- Text contributed by one table row: each readable cell followed by one
space; a raising cell contributes nothing. -/
def rowFrag (row : List (Option String)) : String :=
  row.foldl (fun acc c =>
    match c with
    | none => acc
    | some t => acc ++ t ++ " ") ""

/-- Text contributed by the table branch: all rows in row-major order;
a raising `shape.table` access contributes nothing. -/
def tableFrag : Option (List (List (Option String))) → String
  | none => ""
  | some rows => rows.foldl (fun acc r => acc ++ rowFrag r) ""

/-- Text contributed by the OCR sub-step of the picture branch: a leading
space, the recognized text, a trailing space — or nothing when OCR is
disabled, raises, or returns an empty string. -/
def ocrFrag (ocr : List Nat → Option String) (enableOcr : Bool)
    (blob : List Nat) : String :=
  if enableOcr then
    match ocr blob with
    | none => ""
    | some t => if t = "" then "" else " " ++ t ++ " "
  else ""

mutual

/-- Model of `extract_from_all_shapes` in `app.py`: returns the
accumulated text and the collected image payloads of one shape.  The four
guarded blocks of the source (own text, table, group, picture) run in
this order, each wrapped in its own exception absorber. -/
def extract_from_all_shapes (ocr : List Nat → Option String)
    (enableOcr collectImages : Bool) :
    PShape → String × List (List Nat)
  | .mk text kind tbl children blob _ _ =>
    let t1 := textFrag text
    let t2 := if kind = some ShapeKind.table then t1 ++ tableFrag tbl else t1
    let r3 :=
      if kind = some ShapeKind.group then
        match children with
        | none => (t2, ([] : List (List Nat)))
        | some cs =>
          let rc := extractChildren ocr enableOcr collectImages cs
          (t2 ++ rc.1, rc.2)
      else (t2, [])
    if kind = some ShapeKind.picture then
      match blob with
      | none => r3
      | some b =>
        let imgs := if collectImages then r3.2 ++ [b] else r3.2
        (r3.1 ++ ocrFrag ocr enableOcr b, imgs)
    else r3

/-- Model of the loop `for shp in shape.shapes` inside the group branch:
texts and image lists of the children are concatenated in child order. -/
def extractChildren (ocr : List Nat → Option String)
    (enableOcr collectImages : Bool) :
    List PShape → String × List (List Nat)
  | [] => ("", [])
  | s :: ss =>
    let r := extract_from_all_shapes ocr enableOcr collectImages s
    let rs := extractChildren ocr enableOcr collectImages ss
    (r.1 ++ rs.1, r.2 ++ rs.2)

end

/-! ### Match engine and scan pipeline -/

/-- One row appended to `matches` in `app.py` (keys `File`,
`Slide Number`, `Keyword`, `Similarity`, `Excerpt`, `FullText`,
`Images`). -/
structure MatchRecord : Type where
  file : String
  slideNumber : Nat
  keyword : String
  similarity : Nat
  excerpt : String
  fullText : String
  images : List (List Nat)
deriving DecidableEq, Repr

/-- Search configuration: the sidebar settings plus the two external
capabilities (OCR and the fuzzy partial-similarity function of
rapidfuzz, scores in 0..100). -/
structure Config : Type where
  ocr : List Nat → Option String
  includeOcr : Bool
  collectImages : Bool
  pr : String → String → Nat
  exactMatch : Bool
  fuzzyThreshold : Nat

/-- Model of the excerpt expression
`(cleaned[:200] + "...") if len(cleaned) > 200 else cleaned`. -/
def excerptOf (cleaned : String) : String :=
  if cleaned.data.length > 200 then String.mk (cleaned.data.take 200) ++ "..."
  else cleaned

/-- Model of one iteration of the keyword loop in `app.py`: decides
whether keyword `kw` matches the cleaned slide text and builds the match
row. -/
def matchStep (cfg : Config) (file : String) (slideNum : Nat)
    (cleaned : String) (imgs : List (List Nat)) (kw : String) :
    Option MatchRecord :=
  let kwLower := pyLower kw
  if cfg.exactMatch then
    if strContains (pyLower cleaned) kwLower then
      some ⟨file, slideNum, kw, 100, excerptOf cleaned, cleaned, imgs⟩
    else none
  else
    let sim := cfg.pr kwLower (pyLower cleaned)
    if cfg.fuzzyThreshold ≤ sim then
      some ⟨file, slideNum, kw, sim, excerptOf cleaned, cleaned, imgs⟩
    else none

/-- Model of the body of the slide loop: accumulate shape text and
images, clean the text, skip the slide when it is blank, otherwise run
every keyword through `matchStep` in order. -/
def processSlide (cfg : Config) (kws : List String) (file : String)
    (slideNum : Nat) (shapes : List PShape) : List MatchRecord :=
  let acc := extractChildren cfg.ocr cfg.includeOcr cfg.collectImages shapes
  let cleaned := clean_text acc.1
  if pyStrip cleaned = "" then []
  else kws.filterMap (matchStep cfg file slideNum cleaned acc.2)

/-- Model of `for slide_num, slide in enumerate(prs.slides, start=1)`:
slides are processed in order with 1-based numbering. -/
def processSlides (cfg : Config) (kws : List String) (file : String) :
    Nat → List (List PShape) → List MatchRecord
  | _, [] => []
  | n, s :: ss =>
    processSlide cfg kws file n s ++ processSlides cfg kws file (n + 1) ss

/-- A presentation is its slide list; each slide is its top-level shape
list. -/
def processPres (cfg : Config) (kws : List String) (file : String)
    (slides : List (List PShape)) : List MatchRecord :=
  processSlides cfg kws file 1 slides

/-- Model of the file loop: each path carries `some` presentation when
`Presentation(file_path)` succeeds and `none` when it raises.  Returns
the accumulated matches and the warning messages (one file name per
failed open, in order). -/
def scanDocs (cfg : Config) (kws : List String) :
    List (String × Option (List (List PShape))) →
    List MatchRecord × List String
  | [] => ([], [])
  | (name, none) :: rest =>
    let r := scanDocs cfg kws rest
    (r.1, name :: r.2)
  | (name, some slides) :: rest =>
    let r := scanDocs cfg kws rest
    (processPres cfg kws name slides ++ r.1, r.2)

/-! ### Keyword tokenization and search validation -/

/-- The separator set of `re.split(r",|\n|;", keywords_input)`. -/
def isSepChar (c : Char) : Bool :=
  c = ',' || c = '\n' || c = ';'

/-- Model of `re.split` on a single-character alternation: cut the
character list at every separator, keeping empty pieces. -/
def splitSeps : List Char → List (List Char)
  | [] => [[]]
  | c :: cs =>
    if isSepChar c then [] :: splitSeps cs
    else
      match splitSeps cs with
      | [] => [[c]]
      | p :: ps => (c :: p) :: ps

/-- Model of
`[k.strip() for k in re.split(r",|\n|;", keywords_input) if k.strip()]`. -/
def tokenize (s : String) : List String :=
  ((splitSeps s.data).map (fun l => pyStrip (String.mk l))).filter
    (fun k => k ≠ "")

/-- An uploaded file: a direct presentation upload, or an archive whose
expansion yields a list of presentation paths.  Each path carries `some`
slides when the file opens and `none` when opening raises. -/
inductive Upload : Type where
  | pptx (name : String) (doc : Option (List (List PShape)))
  | zip (contents : List (String × Option (List (List PShape))))

/-- Model of the path-building loop: a direct upload contributes itself,
an archive contributes its contained presentation paths. -/
def resolvePaths (u : Upload) : List (String × Option (List (List PShape))) :=
  match u with
  | .pptx name doc => [(name, doc)]
  | .zip contents => contents

/-- The hard stops of the search handler in `app.py`, in check order: no
uploaded files, blank keyword input, no presentation paths found. -/
inductive ConfigError : Type where
  | noFiles
  | noKeywords
  | noPptx
deriving DecidableEq, Repr

/-- Model of the search handler: validation, tokenization, path
resolution, then the document scan.  An `Except.error` is a hard stop
raised before any document is opened. -/
def runSearch (cfg : Config) (uploads : List Upload)
    (keywordsInput : String) :
    Except ConfigError (List MatchRecord × List String) :=
  if uploads.isEmpty then .error .noFiles
  else if pyStrip keywordsInput = "" then .error .noKeywords
  else
    let kws := tokenize keywordsInput
    let paths := uploads.flatMap resolvePaths
    if paths.isEmpty then .error .noPptx
    else .ok (scanDocs cfg kws paths)

/-! ### Spec-modelled components

The repository spec describes chart extraction, a phrase-boundary match
mode, and a title-inference heuristic; none of these appear in the
source file under verification, so they are modelled from the spec
text. -/

/-- Modelled from the spec: a chart as consumed by the chart branch of
ShapeTextExtractor (section 4.1).  `none` models a structurally absent
or raising sub-feature: no chart title, no axis title, no legend, no
data labels.  A `none` data label models an absent label on that
point. -/
structure ChartModel : Type where
  title : Option String
  catAxisTitle : Option String
  valAxisTitle : Option String
  legend : Option (List String)
  series : Option (List (List (Option String)))
deriving DecidableEq, Repr

/-- Append one trimmed fragment to an accumulator, separating fragments
by exactly one space and skipping empty fragments. -/
def appendFrag (acc f : String) : String :=
  if f = "" then acc
  else if acc = "" then f
  else acc ++ " " ++ f

/-- Join a list of fragments with single spaces. -/
def joinSp : List String → String
  | [] => ""
  | [f] => f
  | f :: fs => f ++ " " ++ joinSp fs

/-- One optional-text chart stage (title or an axis title): append the
trimmed text when the sub-feature is present, keep the accumulator when
it is absent or raises. -/
def chartStageOpt (acc : String) (o : Option String) : String :=
  match o with
  | none => acc
  | some t => appendFrag acc (pyStrip t)

/-- The legend stage: append each trimmed legend entry in legend order;
an absent legend contributes nothing. -/
def chartStageLegend (acc : String) (o : Option (List String)) : String :=
  match o with
  | none => acc
  | some es => es.foldl (fun a e => appendFrag a (pyStrip e)) acc

/-- The data-label stage: for every series in order, for every point in
order, append the trimmed label when present; absent plots or labels
contribute nothing. -/
def chartStageLabels (acc : String)
    (o : Option (List (List (Option String)))) : String :=
  match o with
  | none => acc
  | some ss =>
    ss.foldl (fun a pts =>
      pts.foldl (fun a2 p =>
        match p with
        | none => a2
        | some lb => appendFrag a2 (pyStrip lb)) a) acc

/-- Modelled from the spec: chart text extraction (section 4.1, step 3).
Concatenates, in this fixed order: chart title, category-axis title,
value-axis title, legend entries in legend order, then data labels per
series per point; every fragment is trimmed, empty fragments are
skipped, and an absent sub-feature contributes nothing. -/
def extractChartText (c : ChartModel) : String :=
  chartStageLabels
    (chartStageLegend
      (chartStageOpt
        (chartStageOpt
          (chartStageOpt "" c.title)
          c.catAxisTitle)
        c.valAxisTitle)
      c.legend)
    c.series

/-- The fragment contributed by one raw text: its trimmed form when that
is non-empty, nothing otherwise. -/
def stripFrags (t : String) : List String :=
  if pyStrip t = "" then [] else [pyStrip t]

/-- The trimmed, non-empty fragments contributed by one optional chart
sub-feature. -/
def optFrags (o : Option String) : List String :=
  match o with
  | none => []
  | some t => stripFrags t

/-- The trimmed, non-empty legend fragments, in legend order. -/
def legendFrags (o : Option (List String)) : List String :=
  match o with
  | none => []
  | some es => es.flatMap stripFrags

/-- The fragments of one data point: its trimmed label when present and
non-empty. -/
def pointFrags (p : Option String) : List String :=
  match p with
  | none => []
  | some lb => stripFrags lb

/-- The trimmed, non-empty data-label fragments, series by series, point
by point; absent labels contribute nothing. -/
def labelFrags (o : Option (List (List (Option String)))) : List String :=
  match o with
  | none => []
  | some ss => ss.flatMap (fun pts => pts.flatMap pointFrags)

/-- The full ordered fragment list of a chart: the five sections of the
spec in their fixed order. -/
def chartFrags (c : ChartModel) : List String :=
  optFrags c.title ++ optFrags c.catAxisTitle ++ optFrags c.valAxisTitle ++
    legendFrags c.legend ++ labelFrags c.series

/-! ### Spec-modelled phrase-boundary matching -/

/-- Word characters for boundary tests: letters, digits, underscore. -/
def isWordChar (c : Char) : Bool :=
  c.isAlphanum || c = '_'

/-- Characters allowed immediately after a phrase-boundary match:
whitespace or one of the punctuation marks hyphen, colon, closing
parenthesis, closing bracket. -/
def isBoundaryAfter (c : Char) : Bool :=
  c.isWhitespace || c = '-' || c = ':' || c = ')' || c = ']'

/-- Modelled from the spec: the keyword occurs at position `i` of the
text with the required boundaries — not immediately preceded by a word
character, and followed by whitespace, allowed punctuation, or
end-of-text.  Both lists are already case-folded. -/
def pbMatchAt (t k : List Char) (i : Nat) : Bool :=
  ((t.drop i).take k.length == k) &&
  (i == 0 || !isWordChar (t.getD (i - 1) ' ')) &&
  (t.length == i + k.length || isBoundaryAfter (t.getD (i + k.length) ' '))

/-- Modelled from the spec: the phrase-boundary exact mode (section 4.4),
a case-insensitive scan for a boundary-respecting occurrence of the
keyword. -/
def phraseBoundaryMatch (text kw : String) : Bool :=
  let tl := text.data.map Char.toLower
  let kl := kw.data.map Char.toLower
  (List.range (tl.length + 1)).any (pbMatchAt tl kl)

/-- Modelled from the spec: the score recorded by the phrase-boundary
mode — 100 on match, no record otherwise. -/
def phraseBoundaryScore (text kw : String) : Option Nat :=
  if phraseBoundaryMatch text kw then some 100 else none

/-! ### Spec-modelled title inference -/

/-- Modelled from the spec: a per-slide title candidate (section 3). -/
structure TitleCandidate : Type where
  pos : Int
  font : Int
  text : String
deriving DecidableEq, Repr

/-- The sort order of the title heuristic: ascending vertical position,
ties broken by descending font size — the key (pos, -font). -/
def candLE (a b : TitleCandidate) : Bool :=
  a.pos < b.pos || (a.pos == b.pos && b.font ≤ a.font)

/-- Stable insertion into a list sorted by `candLE`: the new element goes
before the first existing element it does not strictly follow, so
elements with equal keys keep their original relative order. -/
def insertCand (c : TitleCandidate) : List TitleCandidate →
    List TitleCandidate
  | [] => [c]
  | d :: ds => if candLE c d then c :: d :: ds else d :: insertCand c ds

/-- Stable sort by `candLE` (the Python `sorted` with key
(pos, -font)). -/
def sortCands : List TitleCandidate → List TitleCandidate
  | [] => []
  | c :: cs => insertCand c (sortCands cs)

/-- Modelled from the spec: TitleInferenceHeuristic (section 4.3).
Empty candidate list yields the empty string; otherwise the text of the
first candidate after a stable sort by (pos, -font). -/
def infer (cands : List TitleCandidate) : String :=
  match sortCands cands with
  | [] => ""
  | c :: _ => c.text

/-- The vertical position field of a shape. -/
def PShape.top : PShape → Int
  | .mk _ _ _ _ _ t _ => t

/-- The font size field of a shape. -/
def PShape.font : PShape → Int
  | .mk _ _ _ _ _ _ f => f

/-- Modelled from the spec: the candidate list the aggregator (section
4.2) would build for a slide — one candidate per top-level shape with
non-empty extracted text, carrying the shape position and font size. -/
def titleCandidatesOf (cfg : Config) (shapes : List PShape) :
    List TitleCandidate :=
  shapes.filterMap (fun s =>
    let t := pyStrip
      (extract_from_all_shapes cfg.ocr cfg.includeOcr cfg.collectImages s).1
    if t = "" then none else some ⟨s.top, s.font, t⟩)

/-! ### Helper lemmas on `dropWhile` and `pyStrip` -/

lemma head_dropWhile_not {α : Type} (p : α → Bool) (l : List α) (c : α)
    (h : (l.dropWhile p).head? = some c) : p c = false := by
  have := List.head?_dropWhile_not p l
  rw [h] at this
  exact this

lemma dropWhile_eq_self_of_head {α : Type} (p : α → Bool) (l : List α)
    (h : ∀ c, l.head? = some c → p c = false) : l.dropWhile p = l := by
  cases l with
  | nil => rfl
  | cons c t =>
    have hc : p c = false := h c rfl
    simp [List.dropWhile_cons, hc]

lemma getLast?_dropWhile {α : Type} (p : α → Bool) (l : List α)
    (h : l.dropWhile p ≠ []) : (l.dropWhile p).getLast? = l.getLast? := by
  induction l with
  | nil => simp at h
  | cons c t ih =>
    rw [List.dropWhile_cons] at h ⊢
    by_cases hc : p c = true
    · simp only [hc, if_true] at h ⊢
      have ht : t ≠ [] := by
        intro he
        subst he
        simp at h
      rw [ih h]
      cases t with
      | nil => exact absurd rfl ht
      | cons d u => simp [List.getLast?_cons_cons]
    · simp [hc]

lemma pyStripList_idem (l : List Char) :
    pyStripList (pyStripList l) = pyStripList l := by
  set p := isPySpace with hp
  set A := l.dropWhile p with hA
  set Z := A.reverse.dropWhile p with hZ
  have hpl : pyStripList l = Z.reverse := rfl
  by_cases hze : Z = []
  · rw [hpl, hze]
    rfl
  · have hheadA : ∀ c, A.head? = some c → p c = false := by
      intro c hc
      exact head_dropWhile_not p l c (hA ▸ hc)
    have hheadZ : ∀ c, Z.head? = some c → p c = false := by
      intro c hc
      exact head_dropWhile_not p A.reverse c (hZ ▸ hc)
    have hlastZ : Z.getLast? = A.head? := by
      rw [hZ, getLast?_dropWhile p A.reverse (hZ ▸ hze), List.getLast?_reverse]
    have hheadZr : ∀ c, Z.reverse.head? = some c → p c = false := by
      intro c hc
      rw [List.head?_reverse, hlastZ] at hc
      exact hheadA c hc
    have h1 : Z.reverse.dropWhile p = Z.reverse :=
      dropWhile_eq_self_of_head p Z.reverse hheadZr
    have h2 : Z.dropWhile p = Z :=
      dropWhile_eq_self_of_head p Z hheadZ
    rw [hpl]
    show ((Z.reverse.dropWhile p).reverse.dropWhile p).reverse = Z.reverse
    rw [h1, List.reverse_reverse, h2]

lemma pyStrip_idem (s : String) : pyStrip (pyStrip s) = pyStrip s := by
  show String.mk (pyStripList (pyStripList s.data)) = pyStrip s
  rw [pyStripList_idem]
  rfl

/-! ### Concrete fixtures -/

/-- A plain text-carrier shape: exposes text, no table, no children, no
image. -/
def textShape (t : String) : PShape :=
  .mk (some t) (some .other) none none none 0 0

/-- An exact-match configuration (OCR off, image collection off). -/
def cfgExact : Config :=
  ⟨fun _ => none, false, false, fun _ _ => 0, true, 80⟩

/-- A fuzzy configuration whose threshold 150 lies outside [0, 100]. -/
def cfgThr150 : Config :=
  ⟨fun _ => none, false, false, fun _ _ => 0, false, 150⟩

/-- A one-slide presentation with one text shape. -/
def samplePres : List (List PShape) :=
  [[textShape "Budget 2024"]]

/-! ### C5: match-loop invariants -/

/-- C5: in exact-substring mode a record is produced iff the case-folded
keyword is contained in the case-folded cleaned text and its similarity
is exactly 100; in fuzzy mode a record is produced iff the fuzzy partial
similarity of the lowercased keyword against the lowercased cleaned text
reaches the threshold, and the recorded similarity equals that computed
score, hence is at least the threshold. -/
theorem matchStep_score_spec (cfg : Config) (file : String) (n : Nat)
    (cleaned : String) (imgs : List (List Nat)) (kw : String) :
    (cfg.exactMatch = true →
      (((matchStep cfg file n cleaned imgs kw).isSome = true) ↔
        strContains (pyLower cleaned) (pyLower kw) = true) ∧
      (∀ r, matchStep cfg file n cleaned imgs kw = some r →
        r.similarity = 100)) ∧
    (cfg.exactMatch = false →
      (((matchStep cfg file n cleaned imgs kw).isSome = true) ↔
        cfg.fuzzyThreshold ≤ cfg.pr (pyLower kw) (pyLower cleaned)) ∧
      (∀ r, matchStep cfg file n cleaned imgs kw = some r →
        r.similarity = cfg.pr (pyLower kw) (pyLower cleaned) ∧
        cfg.fuzzyThreshold ≤ r.similarity)) := by
  constructor
  · intro he
    by_cases hc : strContains (pyLower cleaned) (pyLower kw) = true
    · constructor
      · simp [matchStep, he, hc]
      · intro r hr
        simp [matchStep, he, hc] at hr
        rw [← hr]
    · constructor
      · simp [matchStep, he, hc]
      · intro r hr
        simp [matchStep, he, hc] at hr
  · intro he
    by_cases hs : cfg.fuzzyThreshold ≤ cfg.pr (pyLower kw) (pyLower cleaned)
    · constructor
      · simp [matchStep, he, hs]
      · intro r hr
        simp [matchStep, he, hs] at hr
        constructor
        · rw [← hr]
        · rw [← hr]
          exact hs
    · constructor
      · simp [matchStep, he, hs]
      · intro r hr
        simp [matchStep, he, hs] at hr

/-- C5 witness: concrete exact-substring match with score 100. -/
theorem matchStep_score_spec_witness :
    (matchStep cfgExact "deck.pptx" 1 "Q3 Revenue Growth" [] "revenue").isSome
      = true ∧
    (matchStep cfgThr150 "deck.pptx" 1 "Q3 Revenue Growth" [] "revenue").isSome
      = false := by
  constructor
  · exact ((matchStep_score_spec cfgExact "deck.pptx" 1 "Q3 Revenue Growth"
      [] "revenue").1 rfl).1.mpr (by decide)
  · have h := ((matchStep_score_spec cfgThr150 "deck.pptx" 1
      "Q3 Revenue Growth" [] "revenue").2 rfl).1
    rw [Bool.eq_false_iff]
    intro hs
    exact absurd (h.mp hs) (by decide)

/-! ### C9: configuration validation -/

/-- C9 counterexample: a search invoked with a separator-only keyword
input (which tokenizes to the empty keyword list) and a fuzzy threshold
of 150 (outside [0, 100]) is not rejected — validation passes and the
document is scanned, producing zero matches.  The claim says both
conditions are hard stops before scanning. -/
theorem runSearch_not_rejected_counterexample :
    tokenize "," = [] ∧
    runSearch cfgThr150 [Upload.pptx "deck.pptx" (some samplePres)] "," =
      .ok ([], []) := by
  constructor
  · rfl
  · rfl

/-- C9 amended: the hard stops before any document is opened are exactly:
no uploaded files, blank raw keyword input, or no presentation paths
resolved from the uploads.  The fuzzy threshold is never validated, and
a non-blank keyword input that tokenizes to the empty keyword list is
not rejected. -/
theorem runSearch_validation_spec (cfg : Config) (uploads : List Upload)
    (kwInput : String) :
    ((∃ e, runSearch cfg uploads kwInput = .error e) ↔
      (uploads = [] ∨ pyStrip kwInput = "" ∨
        uploads.flatMap resolvePaths = [])) := by
  constructor
  · intro ⟨e, he⟩
    by_cases h1 : uploads.isEmpty
    · exact Or.inl (List.isEmpty_iff.mp h1)
    · by_cases h2 : pyStrip kwInput = ""
      · exact Or.inr (Or.inl h2)
      · by_cases h3 : (uploads.flatMap resolvePaths).isEmpty
        · exact Or.inr (Or.inr (List.isEmpty_iff.mp h3))
        · exfalso
          simp [runSearch, h1, h2, h3] at he
  · intro h
    rcases h with h1 | h2 | h3
    · exact ⟨.noFiles, by simp [runSearch, h1]⟩
    · by_cases h1 : uploads.isEmpty
      · exact ⟨.noFiles, by simp [runSearch, h1]⟩
      · exact ⟨.noKeywords, by simp [runSearch, h1, h2]⟩
    · by_cases h1 : uploads.isEmpty
      · exact ⟨.noFiles, by simp [runSearch, h1]⟩
      · by_cases h2 : pyStrip kwInput = ""
        · exact ⟨.noKeywords, by simp [runSearch, h1, h2]⟩
        · exact ⟨.noPptx, by simp [runSearch, h1, h2, h3]⟩

/-! ### C10: keyword tokenization -/

/-- C10: keywords are obtained by splitting the raw input on commas,
semicolons and newlines, stripping each piece and dropping empty pieces,
so every keyword handed to the match loop is non-empty and
whitespace-trimmed; an input consisting only of separators tokenizes to
the empty keyword list yet passes the non-blank validation, and the scan
then proceeds and yields zero matches. -/
theorem tokenize_spec :
    (∀ input kw, kw ∈ tokenize input → kw ≠ "" ∧ pyStrip kw = kw) ∧
    tokenize ",;\n" = [] ∧
    pyStrip ",;\n" ≠ "" ∧
    runSearch cfgThr150 [Upload.pptx "deck.pptx" (some samplePres)] ",;\n" =
      .ok ([], []) := by
  refine ⟨?_, rfl, by decide, rfl⟩
  intro input kw hkw
  unfold tokenize at hkw
  have hne := (List.mem_filter.mp hkw).2
  have hmem := (List.mem_filter.mp hkw).1
  obtain ⟨piece, _, hpe⟩ := List.mem_map.mp hmem
  refine ⟨by simpa using hne, ?_⟩
  rw [← hpe, pyStrip_idem]

/-- C10 witness: a concrete tokenized keyword is non-empty and
strip-invariant. -/
theorem tokenize_spec_witness :
    "job code 1234" ≠ "" ∧ pyStrip "job code 1234" = "job code 1234" :=
  tokenize_spec.1 " job code 1234 ,; Integration BDM " "job code 1234"
    (by decide)

/-! ### C8: scan resilience -/

/-- The matches derivable from the documents that open successfully, in
document order. -/
def successMatches (cfg : Config) (kws : List String)
    (docs : List (String × Option (List (List PShape)))) :
    List MatchRecord :=
  docs.flatMap (fun d =>
    match d.2 with
    | none => []
    | some slides => processPres cfg kws d.1 slides)

/-- The names of the documents that fail to open, in document order. -/
def failureWarnings
    (docs : List (String × Option (List (List PShape)))) : List String :=
  docs.filterMap (fun d =>
    match d.2 with
    | none => some d.1
    | some _ => none)

/-- C8: a document that fails to open is skipped after exactly one
warning, and the scan result is exactly the concatenation of the matches
of the documents that opened, in document order; concretely, a corrupt
second document out of three contributes nothing and leaves the other
matches of the other two documents unchanged. -/
theorem scanDocs_resilience (cfg : Config) (kws : List String)
    (docs : List (String × Option (List (List PShape)))) :
    scanDocs cfg kws docs = (successMatches cfg kws docs,
      failureWarnings docs) ∧
    (∀ n1 n2 n3 p1 p3,
      scanDocs cfg kws [(n1, some p1), (n2, none), (n3, some p3)] =
        (processPres cfg kws n1 p1 ++ processPres cfg kws n3 p3, [n2])) := by
  constructor
  · induction docs with
    | nil => rfl
    | cons d rest ih =>
      obtain ⟨name, doc⟩ := d
      cases doc with
      | none =>
        simp [scanDocs, ih, successMatches, failureWarnings]
      | some slides =>
        simp [scanDocs, ih, successMatches, failureWarnings]
  · intro n1 n2 n3 p1 p3
    simp [scanDocs]

/-! ### C7: extraction totality and local failure absorption -/

/-- C7: shape extraction absorbs every sub-feature failure locally (a
raising access is a `none` field): a shape whose text and kind accesses
both raise contributes nothing at all; a raising table cell is skipped
while its neighbours still contribute; OCR failure on a picture costs
only the recognized text, the image payload is still collected; a
malformed child inside a group costs only that child.  The extractor is
a total function, so no failure ever propagates to the caller. -/
theorem extract_absorbs_failures :
    (∀ ocr eo ci tbl cs blob top f,
      extract_from_all_shapes ocr eo ci (.mk none none tbl cs blob top f) =
        ("", [])) ∧
    (∀ ocr eo ci top f,
      extract_from_all_shapes ocr eo ci
        (.mk none (some .table) (some [[some "A", none, some "B"]])
          none none top f) = ("A B ", [])) ∧
    (∀ b top f,
      extract_from_all_shapes (fun _ => none) true true
        (.mk none (some .picture) none none (some b) top f) = ("", [b])) ∧
    (∀ ocr eo ci top f,
      extract_from_all_shapes ocr eo ci
        (.mk none (some .group) none
          (some [.mk none none none none none 0 0, textShape "ok"])
          none top f) = ("ok ", [])) := by
  refine ⟨?_, ?_, ?_, ?_⟩
  · intro ocr eo ci tbl cs blob top f
    simp [extract_from_all_shapes, textFrag]
  · intro ocr eo ci top f
    simp [extract_from_all_shapes, textFrag, tableFrag, rowFrag]
  · intro b top f
    simp [extract_from_all_shapes, textFrag, ocrFrag]
  · intro ocr eo ci top f
    simp [extract_from_all_shapes, extractChildren, textShape, textFrag]

/-! ### C6: fragment accumulation and normalization -/

/-- C6 counterexample: fragments are not trimmed before concatenation
and the slide text is not the trimmed accumulator.  A slide whose only
shape carries the text " b" accumulates " b " (leading whitespace kept,
trailing space appended), and the cleaned text fed to the matcher is
" b ", not the trimmed "b". -/
theorem slide_text_untrimmed_counterexample :
    (extractChildren (fun _ => none) false false [textShape " b"]).1 =
      " b " ∧
    clean_text " b " = " b " ∧
    pyStrip " b " = "b" ∧
    (" b " : String) ≠ "b" := by
  refine ⟨rfl, rfl, by decide, by decide⟩

/-- Concatenation of a list of strings, in order. -/
def joinAll : List String → String
  | [] => ""
  | t :: ts => t ++ joinAll ts

/-- C6 amended: every non-empty shape text fragment is appended verbatim
(untrimmed) followed by exactly one space — empty texts contribute
nothing — and the per-slide search text is `clean_text` of the raw
accumulator, with control characters removed but no trimming; every
produced match row carries that cleaned accumulator as its full text. -/
theorem slide_accumulation_spec (ocr : List Nat → Option String)
    (eo ci : Bool) (ts : List String) :
    (extractChildren ocr eo ci (ts.map textShape)).1 =
      joinAll (ts.map (fun t => textFrag (some t))) ∧
    (extractChildren ocr eo ci (ts.map textShape)).2 = [] ∧
    (∀ cfg kws file n shapes r,
      r ∈ processSlide cfg kws file n shapes →
      r.fullText =
        clean_text
          (extractChildren cfg.ocr cfg.includeOcr cfg.collectImages
            shapes).1) := by
  refine ⟨?_, ?_, ?_⟩
  · induction ts with
    | nil => rfl
    | cons t rest ih =>
      simp only [List.map_cons, extractChildren, joinAll]
      rw [← ih]
      rfl
  · induction ts with
    | nil => rfl
    | cons t rest ih =>
      simp only [List.map_cons, extractChildren]
      rw [show (extract_from_all_shapes ocr eo ci (textShape t)).2 = []
        from rfl]
      simpa using ih
  · intro cfg kws file n shapes r hr
    unfold processSlide at hr
    by_cases hb : pyStrip (clean_text
        (extractChildren cfg.ocr cfg.includeOcr cfg.collectImages
          shapes).1) = ""
    · simp [hb] at hr
    · simp only [hb, if_neg, if_false] at hr
      obtain ⟨kw, _, hstep⟩ := List.mem_filterMap.mp hr
      unfold matchStep at hstep
      by_cases he : cfg.exactMatch
      · simp only [he, if_true] at hstep
        by_cases hc : strContains
            (pyLower (clean_text
              (extractChildren cfg.ocr cfg.includeOcr cfg.collectImages
                shapes).1)) (pyLower kw) = true
        · rw [if_pos hc] at hstep
          cases hstep
          rfl
        · rw [if_neg hc] at hstep
          cases hstep
      · simp only [he, if_false] at hstep
        by_cases hs : cfg.fuzzyThreshold ≤ cfg.pr (pyLower kw)
            (pyLower (clean_text
              (extractChildren cfg.ocr cfg.includeOcr cfg.collectImages
                shapes).1))
        · rw [if_pos hs] at hstep
          cases hstep
          rfl
        · rw [if_neg hs] at hstep
          cases hstep

/-- C6 amended witness: the membership conjunct applied to a concrete
slide and match row. -/
theorem slide_accumulation_spec_witness :
    ∃ r, r ∈ processSlide cfgExact ["budget"] "deck.pptx" 1
        [textShape "Budget 2024"] ∧
      r.fullText = clean_text
        (extractChildren cfgExact.ocr cfgExact.includeOcr
          cfgExact.collectImages [textShape "Budget 2024"]).1 := by
  refine ⟨⟨"deck.pptx", 1, "budget", 100, "Budget 2024 ", "Budget 2024 ",
    []⟩, ?_, ?_⟩
  · decide
  · exact (slide_accumulation_spec (fun _ => none) false false []).2.2
      cfgExact ["budget"] "deck.pptx" 1 [textShape "Budget 2024"] _
      (by decide)

/-! ### C1: handler dispatch -/

/-- A shape that exposes its own text and is of table kind with one
cell. -/
def tableWithOwnText : PShape :=
  .mk (some "X") (some .table) (some [[some "Y"]]) none none 0 0

/-- C1 counterexample: the extractor has no first-match-wins dispatch.
A shape of table kind that also exposes a text attribute contributes
through both the plain-text fallback and the table handler: the result
is "X Y ", not the table-only "Y ".  So a shape handled as a table does
additionally contribute its own plain text, contrary to the claim. -/
theorem extract_no_precedence_counterexample :
    extract_from_all_shapes (fun _ => none) false false tableWithOwnText =
      ("X Y ", []) ∧
    ("X Y " : String) ≠ "Y " := by
  exact ⟨rfl, by decide⟩

/-- C1 amended: the extractor runs its handler blocks additively in the
fixed source order (own text, table, group, picture), each guarded only
by the single-valued shape kind — so the table, group and picture
handlers are mutually exclusive with each other, but the plain-text
fallback runs for every shape that exposes text, including table and
group shapes; there is no chart handler, so a chart shape contributes
only its own text attribute. -/
theorem extract_dispatch_spec (ocr : List Nat → Option String)
    (eo ci : Bool) :
    (∀ text tbl cs blob top f,
      extract_from_all_shapes ocr eo ci
          (.mk text (some .table) tbl cs blob top f) =
        (textFrag text ++ tableFrag tbl, [])) ∧
    (∀ text tbl cs blob top f,
      extract_from_all_shapes ocr eo ci
          (.mk text (some .group) tbl (some cs) blob top f) =
        (textFrag text ++ (extractChildren ocr eo ci cs).1,
          (extractChildren ocr eo ci cs).2)) ∧
    (∀ text tbl cs blob top f,
      extract_from_all_shapes ocr eo ci
          (.mk text (some .picture) tbl cs (some blob) top f) =
        (textFrag text ++ ocrFrag ocr eo blob,
          if ci then [blob] else [])) ∧
    (∀ text tbl cs blob top f,
      extract_from_all_shapes ocr eo ci
          (.mk text (some .chart) tbl cs blob top f) =
        (textFrag text, [])) := by
  refine ⟨?_, ?_, ?_, ?_⟩
  · intro text tbl cs blob top f
    simp [extract_from_all_shapes]
  · intro text tbl cs blob top f
    simp [extract_from_all_shapes]
  · intro text tbl cs blob top f
    cases ci <;> simp [extract_from_all_shapes]
  · intro text tbl cs blob top f
    simp [extract_from_all_shapes]

/-! ### C4: title inference -/

lemma candLE_refl (a : TitleCandidate) : candLE a a = true := by
  simp [candLE]

lemma candLE_total (a b : TitleCandidate) :
    candLE a b = true ∨ candLE b a = true := by
  simp only [candLE, Bool.or_eq_true, Bool.and_eq_true, decide_eq_true_eq,
    beq_iff_eq]
  omega

lemma candLE_trans (a b c : TitleCandidate) (h1 : candLE a b = true)
    (h2 : candLE b c = true) : candLE a c = true := by
  simp only [candLE, Bool.or_eq_true, Bool.and_eq_true, decide_eq_true_eq,
    beq_iff_eq] at h1 h2 ⊢
  omega

lemma mem_insertCand (c x : TitleCandidate) (l : List TitleCandidate) :
    x ∈ insertCand c l ↔ x = c ∨ x ∈ l := by
  induction l with
  | nil => simp [insertCand]
  | cons d ds ih =>
    by_cases h : candLE c d = true
    · simp [insertCand, h]
    · rw [insertCand, if_neg h, List.mem_cons, ih, List.mem_cons]
      tauto

lemma insertCand_ne_nil (c : TitleCandidate) (l : List TitleCandidate) :
    insertCand c l ≠ [] := by
  cases l with
  | nil => simp [insertCand]
  | cons d ds =>
    by_cases h : candLE c d = true <;> simp [insertCand, h]

lemma insertCand_pairwise (c : TitleCandidate) (l : List TitleCandidate)
    (h : l.Pairwise (fun a b => candLE a b = true)) :
    (insertCand c l).Pairwise (fun a b => candLE a b = true) := by
  induction l with
  | nil => simp [insertCand]
  | cons d ds ih =>
    rw [List.pairwise_cons] at h
    by_cases hc : candLE c d = true
    · rw [insertCand, if_pos hc, List.pairwise_cons]
      refine ⟨?_, List.pairwise_cons.mpr h⟩
      intro a ha
      rw [List.mem_cons] at ha
      rcases ha with ha | ha
      · rw [ha]
        exact hc
      · exact candLE_trans c d a hc (h.1 a ha)
    · rw [insertCand, if_neg hc, List.pairwise_cons]
      refine ⟨?_, ih h.2⟩
      intro a ha
      rw [mem_insertCand] at ha
      rcases ha with ha | ha
      · rw [ha]
        rcases candLE_total c d with h1 | h1
        · exact absurd h1 hc
        · exact h1
      · exact h.1 a ha

lemma mem_sortCands (x : TitleCandidate) (l : List TitleCandidate) :
    x ∈ sortCands l ↔ x ∈ l := by
  induction l with
  | nil => simp [sortCands]
  | cons c cs ih =>
    rw [sortCands, mem_insertCand, List.mem_cons, ih]

lemma sortCands_pairwise (l : List TitleCandidate) :
    (sortCands l).Pairwise (fun a b => candLE a b = true) := by
  induction l with
  | nil => simp [sortCands]
  | cons c cs ih => exact insertCand_pairwise c (sortCands cs) ih

lemma sortCands_ne_nil (l : List TitleCandidate) (h : l ≠ []) :
    sortCands l ≠ [] := by
  cases l with
  | nil => exact absurd rfl h
  | cons c cs => exact insertCand_ne_nil c (sortCands cs)

/-- Two slides with identical shape texts but different shape positions
and font sizes.  On the first, the topmost shape is "T1"; on the second
it is "Body". -/
def slideTopT1 : List PShape :=
  [.mk (some "T1") (some .other) none none none 0 10,
   .mk (some "Body") (some .other) none none none 100 40]

/-- The same texts with the vertical positions exchanged. -/
def slideTopBody : List PShape :=
  [.mk (some "T1") (some .other) none none none 100 10,
   .mk (some "Body") (some .other) none none none 0 40]

/-- C4 counterexample: the match rows built by the code do not carry the
inferred title.  Two slides with the same texts but different geometry
produce identical match rows, while the spec title heuristic infers
different titles for them — so no field of a produced row can equal the
inferred title on both slides. -/
theorem matched_title_counterexample :
    processSlide cfgExact ["body"] "deck.pptx" 1 slideTopT1 =
      processSlide cfgExact ["body"] "deck.pptx" 1 slideTopBody ∧
    infer (titleCandidatesOf cfgExact slideTopT1) = "T1" ∧
    infer (titleCandidatesOf cfgExact slideTopBody) = "Body" ∧
    ("T1" : String) ≠ "Body" := by
  refine ⟨by decide, by decide, by decide, by decide⟩

/-- C4 amended: title inference (modelled from the spec; absent from the
source) returns the empty string on an empty candidate list, and
otherwise the text of a candidate minimal under the key
(vertical position, -font size) — in particular "Q3 Results" on the
documented example; but the match rows built by the code carry no
inferred title (see the counterexample). -/
theorem infer_title_spec :
    infer [] = "" ∧
    (∀ cs : List TitleCandidate, cs ≠ [] →
      ∃ c, c ∈ cs ∧ infer cs = c.text ∧ ∀ d ∈ cs, candLE c d = true) ∧
    infer [⟨50, 12, "Overview"⟩, ⟨50, 18, "Q3 Results"⟩,
      ⟨120, 24, "Footer"⟩] = "Q3 Results" := by
  refine ⟨rfl, ?_, by decide⟩
  intro cs hne
  cases hs : sortCands cs with
  | nil => exact absurd hs (sortCands_ne_nil cs hne)
  | cons c rest =>
    refine ⟨c, ?_, ?_, ?_⟩
    · rw [← mem_sortCands, hs]
      exact List.mem_cons_self c rest
    · rw [infer, hs]
    · intro d hd
      rw [← mem_sortCands, hs, List.mem_cons] at hd
      rcases hd with hd | hd
      · rw [hd]
        exact candLE_refl c
      · have hp := sortCands_pairwise cs
        rw [hs, List.pairwise_cons] at hp
        exact hp.1 d hd

/-- C4 amended witness: the minimal-candidate conjunct applied to the
documented example list. -/
theorem infer_title_spec_witness :
    ∃ c, c ∈ [(⟨50, 12, "Overview"⟩ : TitleCandidate),
        ⟨50, 18, "Q3 Results"⟩, ⟨120, 24, "Footer"⟩] ∧
      infer [⟨50, 12, "Overview"⟩, ⟨50, 18, "Q3 Results"⟩,
        ⟨120, 24, "Footer"⟩] = c.text ∧
      ∀ d ∈ [(⟨50, 12, "Overview"⟩ : TitleCandidate),
        ⟨50, 18, "Q3 Results"⟩, ⟨120, 24, "Footer"⟩], candLE c d = true :=
  infer_title_spec.2.1 _ (by decide)

/-! ### C2: chart extraction -/

lemma string_eq_iff_data (s t : String) : s = t ↔ s.data = t.data := by
  constructor
  · intro h
    rw [h]
  · intro h
    cases s
    cases t
    exact congrArg String.mk h

lemma append_sp_ne (s t : String) : s ++ " " ++ t ≠ "" := by
  rw [Ne, string_eq_iff_data, String.data_append, String.data_append]
  simp

lemma appendFrag_ne (acc f : String) (hf : f ≠ "") : appendFrag acc f ≠ "" := by
  unfold appendFrag
  rw [if_neg hf]
  by_cases ha : acc = ""
  · rw [if_pos ha]
    exact hf
  · rw [if_neg ha]
    exact append_sp_ne acc f

lemma appendFrag_empty_frag (acc : String) : appendFrag acc "" = acc := rfl

lemma appendFrag_empty_acc (f : String) : appendFrag "" f = f := by
  by_cases hf : f = ""
  · rw [hf]
    rfl
  · unfold appendFrag
    rw [if_neg hf, if_pos rfl]

lemma appendFrag_of_ne (acc f : String) (hf : f ≠ "") :
    appendFrag acc f = if acc = "" then f else acc ++ " " ++ f := by
  unfold appendFrag
  rw [if_neg hf]

lemma joinSp_ne (fs : List String) (hne : fs ≠ [])
    (h : ∀ f ∈ fs, f ≠ "") : joinSp fs ≠ "" := by
  cases fs with
  | nil => exact absurd rfl hne
  | cons f gs =>
    cases gs with
    | nil => exact h f (List.mem_cons_self f [])
    | cons g hs => exact append_sp_ne f (joinSp (g :: hs))

lemma foldl_appendFrag (fs : List String) (h : ∀ f ∈ fs, f ≠ "") :
    ∀ acc, fs.foldl appendFrag acc = appendFrag acc (joinSp fs) := by
  induction fs with
  | nil =>
    intro acc
    rfl
  | cons f gs ih =>
    intro acc
    have hf : f ≠ "" := h f (List.mem_cons_self f gs)
    have hgs : ∀ x ∈ gs, x ≠ "" := fun x hx => h x (List.mem_cons_of_mem f hx)
    rw [List.foldl_cons, ih hgs (appendFrag acc f)]
    cases gs with
    | nil => rfl
    | cons g hs =>
      have hJ : joinSp (g :: hs) ≠ "" :=
        joinSp_ne (g :: hs) (List.cons_ne_nil g hs) hgs
      have hfsp : f ++ " " ++ joinSp (g :: hs) ≠ "" :=
        append_sp_ne f (joinSp (g :: hs))
      show appendFrag (appendFrag acc f) (joinSp (g :: hs)) =
        appendFrag acc (f ++ " " ++ joinSp (g :: hs))
      rw [appendFrag_of_ne _ _ hJ, if_neg (appendFrag_ne acc f hf),
        appendFrag_of_ne _ _ hfsp]
      by_cases ha : acc = ""
      · rw [if_pos ha, ha, appendFrag_empty_acc]
      · rw [if_neg ha, appendFrag_of_ne _ _ hf, if_neg ha]
        simp only [String.append_assoc]

lemma mem_stripFrags (f t : String) (h : f ∈ stripFrags t) : f ≠ "" := by
  unfold stripFrags at h
  by_cases hs : pyStrip t = ""
  · rw [if_pos hs] at h
    simp at h
  · rw [if_neg hs] at h
    rw [List.mem_singleton] at h
    rw [h]
    exact hs

lemma chartStageOpt_eq (acc : String) (o : Option String) :
    chartStageOpt acc o = (optFrags o).foldl appendFrag acc := by
  cases o with
  | none => rfl
  | some t =>
    show appendFrag acc (pyStrip t) = (stripFrags t).foldl appendFrag acc
    unfold stripFrags
    by_cases h : pyStrip t = ""
    · rw [if_pos h, h, appendFrag_empty_frag]
      rfl
    · rw [if_neg h]
      rfl

lemma legendFold (es : List String) : ∀ acc : String,
    es.foldl (fun a e => appendFrag a (pyStrip e)) acc =
      (es.flatMap stripFrags).foldl appendFrag acc := by
  induction es with
  | nil =>
    intro acc
    rfl
  | cons e rest ih =>
    intro acc
    rw [List.foldl_cons, ih, List.flatMap_cons, List.foldl_append]
    unfold stripFrags
    by_cases h : pyStrip e = ""
    · rw [if_pos h, h, appendFrag_empty_frag]
      rfl
    · rw [if_neg h]
      rfl

lemma chartStageLegend_eq (acc : String) (o : Option (List String)) :
    chartStageLegend acc o = (legendFrags o).foldl appendFrag acc := by
  cases o with
  | none => rfl
  | some es => exact legendFold es acc

lemma pointFold (pts : List (Option String)) : ∀ acc : String,
    pts.foldl (fun a2 p =>
      match p with
      | none => a2
      | some lb => appendFrag a2 (pyStrip lb)) acc =
      (pts.flatMap pointFrags).foldl appendFrag acc := by
  induction pts with
  | nil =>
    intro acc
    rfl
  | cons p rest ih =>
    intro acc
    rw [List.foldl_cons, ih, List.flatMap_cons, List.foldl_append]
    cases p with
    | none => rfl
    | some lb =>
      show (rest.flatMap pointFrags).foldl appendFrag
          (appendFrag acc (pyStrip lb)) =
        (rest.flatMap pointFrags).foldl appendFrag
          ((stripFrags lb).foldl appendFrag acc)
      unfold stripFrags
      by_cases h : pyStrip lb = ""
      · rw [if_pos h, h, appendFrag_empty_frag]
        rfl
      · rw [if_neg h]
        rfl

lemma chartStageLabels_eq (acc : String)
    (o : Option (List (List (Option String)))) :
    chartStageLabels acc o = (labelFrags o).foldl appendFrag acc := by
  cases o with
  | none => rfl
  | some ss =>
    show ss.foldl _ acc =
      ((ss.flatMap (fun pts => pts.flatMap pointFrags)).foldl
        appendFrag acc)
    induction ss generalizing acc with
    | nil => rfl
    | cons pts rest ih =>
      rw [List.foldl_cons, List.flatMap_cons, List.foldl_append, ← ih,
        pointFold]

lemma chartFrags_ne (c : ChartModel) : ∀ f ∈ chartFrags c, f ≠ "" := by
  intro f hf
  unfold chartFrags at hf
  rw [List.mem_append, List.mem_append, List.mem_append,
    List.mem_append] at hf
  rcases hf with ((((h | h) | h) | h) | h)
  · unfold optFrags at h
    cases hc : c.title with
    | none =>
      rw [hc] at h
      simp at h
    | some t =>
      rw [hc] at h
      exact mem_stripFrags f t h
  · unfold optFrags at h
    cases hc : c.catAxisTitle with
    | none =>
      rw [hc] at h
      simp at h
    | some t =>
      rw [hc] at h
      exact mem_stripFrags f t h
  · unfold optFrags at h
    cases hc : c.valAxisTitle with
    | none =>
      rw [hc] at h
      simp at h
    | some t =>
      rw [hc] at h
      exact mem_stripFrags f t h
  · unfold legendFrags at h
    cases hc : c.legend with
    | none =>
      rw [hc] at h
      simp at h
    | some es =>
      rw [hc] at h
      obtain ⟨e, _, he⟩ := List.mem_flatMap.mp h
      exact mem_stripFrags f e he
  · unfold labelFrags at h
    cases hc : c.series with
    | none =>
      rw [hc] at h
      simp at h
    | some ss =>
      rw [hc] at h
      obtain ⟨pts, _, hp⟩ := List.mem_flatMap.mp h
      obtain ⟨p, _, hpp⟩ := List.mem_flatMap.mp hp
      cases p with
      | none => simp [pointFrags] at hpp
      | some lb => exact mem_stripFrags f lb hpp

/-- C2: chart extraction (modelled from the spec) returns exactly the
single-space concatenation, in this fixed order, of: the trimmed chart
title, category-axis title, value-axis title, the non-empty legend
entries in legend order, then every present non-empty data label in
series order and point order; a structurally absent sub-feature is
silently skipped, and a chart with no title, no axis titles, no legend
and no data labels yields the empty string without error. -/
theorem extract_chart_ordered (c : ChartModel) :
    extractChartText c = joinSp (chartFrags c) ∧
    extractChartText ⟨none, none, none, none, none⟩ = "" := by
  constructor
  · rw [extractChartText, chartStageLabels_eq, chartStageLegend_eq,
      chartStageOpt_eq, chartStageOpt_eq, chartStageOpt_eq,
      ← List.foldl_append, ← List.foldl_append, ← List.foldl_append,
      ← List.foldl_append]
    simp only [← List.append_assoc]
    show (chartFrags c).foldl appendFrag "" = joinSp (chartFrags c)
    rw [foldl_appendFrag (chartFrags c) (chartFrags_ne c) "",
      appendFrag_empty_acc]
  · rfl

/-! ### C3: phrase-boundary mode -/

/-- A boundary-respecting occurrence of the (case-folded) keyword `kl`
at position `i` of the (case-folded) text `tl`: the keyword fits and
occurs there, is not immediately preceded by a word character, and is
followed by whitespace, allowed punctuation, or end-of-text. -/
def pbOccurrence (tl kl : List Char) (i : Nat) : Prop :=
  i + kl.length ≤ tl.length ∧
  (tl.drop i).take kl.length = kl ∧
  (i = 0 ∨ isWordChar (tl.getD (i - 1) ' ') = false) ∧
  (i + kl.length = tl.length ∨
    isBoundaryAfter (tl.getD (i + kl.length) ' ') = true)

lemma pbMatchAt_iff (tl kl : List Char) (i : Nat) :
    pbMatchAt tl kl i = true ↔
      ((tl.drop i).take kl.length = kl ∧
       (i = 0 ∨ isWordChar (tl.getD (i - 1) ' ') = false) ∧
       (tl.length = i + kl.length ∨
         isBoundaryAfter (tl.getD (i + kl.length) ' ') = true)) := by
  unfold pbMatchAt
  simp [Bool.and_eq_true, Bool.or_eq_true, Bool.not_eq_true', and_assoc]

/-- C3: the phrase-boundary exact mode (modelled from the spec) matches
iff the case-folded keyword occurs somewhere in the case-folded text not
immediately preceded by a word character and followed by whitespace, one
of the punctuation characters hyphen, colon, closing parenthesis,
closing bracket, or end-of-text; every recorded match in this mode
scores exactly 100. -/
theorem phrase_boundary_spec (text kw : String) :
    (phraseBoundaryMatch text kw = true ↔
      ∃ i, pbOccurrence (text.data.map Char.toLower)
        (kw.data.map Char.toLower) i) ∧
    (∀ s, phraseBoundaryScore text kw = some s → s = 100) ∧
    ((phraseBoundaryScore text kw).isSome = true ↔
      phraseBoundaryMatch text kw = true) := by
  refine ⟨?_, ?_, ?_⟩
  · rw [phraseBoundaryMatch, List.any_eq_true]
    constructor
    · rintro ⟨i, hmem, hat⟩
      rw [List.mem_range] at hmem
      rw [pbMatchAt_iff] at hat
      obtain ⟨h1, h2, h3⟩ := hat
      have hbound : i + (kw.data.map Char.toLower).length ≤
          (text.data.map Char.toLower).length := by
        have hlen := congrArg List.length h1
        rw [List.length_take, List.length_drop] at hlen
        omega
      refine ⟨i, hbound, h1, h2, ?_⟩
      rcases h3 with h3 | h3
      · exact Or.inl h3.symm
      · exact Or.inr h3
    · rintro ⟨i, hbound, h1, h2, h3⟩
      refine ⟨i, ?_, ?_⟩
      · rw [List.mem_range]
        omega
      · rw [pbMatchAt_iff]
        refine ⟨h1, h2, ?_⟩
        rcases h3 with h3 | h3
        · exact Or.inl h3.symm
        · exact Or.inr h3
  · intro s hs
    unfold phraseBoundaryScore at hs
    by_cases hm : phraseBoundaryMatch text kw = true
    · rw [if_pos hm] at hs
      cases hs
      rfl
    · rw [if_neg hm] at hs
      cases hs
  · unfold phraseBoundaryScore
    by_cases hm : phraseBoundaryMatch text kw = true
    · simp [hm]
    · simp [hm]

/-- C3 witness: a concrete phrase-boundary match ("revenue" preceded by
a space and followed by a colon) scoring 100. -/
theorem phrase_boundary_spec_witness :
    (100 : Nat) = 100 ∧
    (phraseBoundaryScore "Total Revenue: 5M" "revenue").isSome = true := by
  constructor
  · exact (phrase_boundary_spec "Total Revenue: 5M" "revenue").2.1 100
      (by decide)
  · exact (phrase_boundary_spec "Total Revenue: 5M" "revenue").2.2.mpr
      (by decide)
